import Mathlib

/-!
Shallow embedding of `src/main.rs` of the `slick` repository: a minimal
declarative UI framework.  Rust strings are embedded as `List Char`
(`Str`), so that `str::split('\n')` and string concatenation become
structurally recursive Lean functions.
-/

/-- Rust `String` / `&str`, embedded as a list of characters. -/
abbrev Str := List Char

/-- Embeds `enum NodeAttributeValue { String(String), Number(i32), Boolean(bool) }`.
The `i32` payload is embedded as a mathematical integer; the `From<u32>`
conversion below performs the two's-complement wrap explicitly. -/
inductive NodeAttributeValue where
  | string (x : Str)
  | number (x : Int)
  | boolean (x : Bool)
deriving DecidableEq, Repr

namespace NodeAttributeValue

/-- Embeds `NodeAttributeValue::as_text` (src/main.rs lines 24-32). -/
def as_text : NodeAttributeValue → Str
  | .string x => x
  | .number x => (toString x).data
  | .boolean x => (if x then "true" else "false").data

/-- Embeds `impl Display for NodeAttributeValue` (src/main.rs lines 34-46):
strings are wrapped in double quotes (no escaping), numbers and booleans
are rendered as by `to_string`. -/
def display : NodeAttributeValue → Str
  | .string x => '"' :: x ++ ['"']
  | .number x => (toString x).data
  | .boolean x => (if x then "true" else "false").data

/-- Embeds `impl From<String> for NodeAttributeValue` (src/main.rs lines 48-52). -/
def fromString (x : Str) : NodeAttributeValue := .string x

/-- Embeds `impl From<i32> for NodeAttributeValue` (src/main.rs lines 60-64). -/
def fromI32 (x : Int) : NodeAttributeValue := .number x

/-- Two's-complement reading of a `u32` bit pattern as an `i32`:
the meaning of Rust's `x as i32` for `x : u32`. -/
def u32AsI32 (x : Nat) : Int :=
  if x % 2 ^ 32 < 2 ^ 31 then (x % 2 ^ 32 : Int) else (x % 2 ^ 32 : Int) - 2 ^ 32

/-- Embeds `impl From<u32> for NodeAttributeValue` (src/main.rs lines 66-70):
`NodeAttributeValue::Number(x as i32)`. -/
def fromU32 (x : Nat) : NodeAttributeValue := .number (u32AsI32 x)

end NodeAttributeValue

/-- The attribute mapping `HashMap<&'static str, NodeAttributeValue>`,
embedded as an association list; the list order stands for the map's
iteration order. -/
abbrev Attrs := List (Str × NodeAttributeValue)

mutual
/-- Embeds `enum NodeKind` (src/main.rs lines 76-83).  The `Custom` variant of the
source also owns the boxed component instance; the renderer and all claims
only ever read the cached `rendered` subtree, which is what is embedded
(the component instance itself is reattached in `Node.custom` below). -/
inductive NodeKind where
  | native (tag : Str)
  | text (value : Str)
  | custom (rendered : Node)

/-- Embeds `struct Node` (src/main.rs lines 99-105): kind, children, `on_click`
(an optional type-erased message, embedded opaquely) and attributes. -/
inductive Node where
  | mk (kind : NodeKind) (children : List Node) (on_click : Option Unit)
      (attributes : Attrs)
end

/-- Field accessor `node.kind`. -/
def Node.kind : Node → NodeKind
  | .mk k _ _ _ => k

/-- Field accessor `node.children`. -/
def Node.children : Node → List Node
  | .mk _ cs _ _ => cs

/-- Field accessor `node.on_click`. -/
def Node.on_click : Node → Option Unit
  | .mk _ _ oc _ => oc

/-- Field accessor `node.attributes`. -/
def Node.attributes : Node → Attrs
  | .mk _ _ _ a => a

/-- Rust `str::split('\n')` over the embedded string type: splits at every
newline; the empty string yields a single empty part, so the result is
always non-empty. -/
def splitNl : Str → List Str
  | [] => [[]]
  | c :: rest =>
    if c = '\n' then [] :: splitNl rest
    else
      match splitNl rest with
      | [] => [[c]]
      | p :: ps => (c :: p) :: ps

/-- Rust's `iter().reduce(|acc, x| format!("{acc}SEPx{}", ...))
.unwrap_or_default()` pattern (src/main.rs lines 160, 168, 170): joins a
list of strings with a separator, producing the empty string on the empty
list. -/
def joinSep (sep : Str) : List Str → Str
  | [] => []
  | [p] => p
  | p :: ps => p ++ sep ++ joinSep sep ps

/-- The per-child re-indentation of `Node::to_html` (src/main.rs lines
165-169): split the child's rendering at newlines, prefix each line with
two spaces, and re-join with newlines. -/
def indentChild (s : Str) : Str :=
  joinSep ['\n'] ((splitNl s).map (fun line => ' ' :: ' ' :: line))

/-- One attribute entry `format!("{}={}", key, val)` (src/main.rs line 159),
using the `Display` projection for the value. -/
def attrEntry (kv : Str × NodeAttributeValue) : Str :=
  kv.1 ++ '=' :: kv.2.display

/-- The space-joined attribute string (src/main.rs lines 157-161):
`map` then `reduce` with a single-space separator, empty when there are no
attributes. -/
def attrsJoined (attributes : Attrs) : Str :=
  joinSep [' '] (attributes.map attrEntry)

mutual
/-- Embeds `Node::to_html` (src/main.rs lines 148-176). -/
def Node.to_html : Node → Str
  | .mk (.text value) _ _ _ => value
  | .mk (.custom rendered) _ _ _ => rendered.to_html
  | .mk (.native tag) children _ attributes =>
      '<' :: tag ++
      (if attributes.length = 0 then [] else [' ']) ++
      attrsJoined attributes ++
      '>' :: '\n' ::
      joinSep ['\n'] (renderChildren children) ++
      '\n' :: '<' :: '/' :: tag ++ ['>']

/-- The child renderings of src/main.rs lines 162-169: each child's
`to_html`, re-indented by `indentChild` (equals
`children.map (indentChild ∘ Node.to_html)`, spelled out for structural
recursion). -/
def renderChildren : List Node → List Str
  | [] => []
  | c :: cs => indentChild c.to_html :: renderChildren cs
end

/-- Embeds `enum Effect {}` (src/main.rs line 178): an uninhabited type. -/
inductive Effect where

/-- A type-erased `Box<dyn Component<Message = ()>>` as consumed by
`Node::custom`: `view` is the tree that `view()` returns for the instance's
current state, `update` what `update(())` would return.  `view(&self)`
takes the receiver immutably, so for a fixed instance it is a fixed tree. -/
structure Component where
  view : Node
  update : Unit → Option Effect

/-- Embeds `Node::native` (src/main.rs lines 109-116). -/
def Node.native (tag : Str) : Node := .mk (.native tag) [] none []

/-- Embeds `Node::text` (src/main.rs lines 118-125). -/
def Node.text (value : Str) : Node := .mk (.text value) [] none []

/-- Embeds `Node::custom` (src/main.rs lines 127-137): calls `value.view()` once,
right here, and stores the result as the `rendered` field of the `Custom`
kind (the component instance is moved in alongside it). -/
def Node.custom (value : Component) : Node := .mk (.custom value.view) [] none []

/-- Embeds `Node::with_child` (src/main.rs lines 142-145): pushes one child at the
end of `children` and returns the node. -/
def Node.with_child : Node → Node → Node
  | .mk k cs oc attrs, child => .mk k (cs ++ [child]) oc attrs

/-- Embeds `struct Test` (src/main.rs line 187): a unit struct. -/
structure Test where

/-- Embeds `Test::view` (src/main.rs lines 192-194). -/
def Test.view (_ : Test) : Node := Node.text "Hello world".data

/-- Embeds `Test::update` (src/main.rs lines 196-198): returns `None` and, the
struct having no fields, leaves the receiver unchanged. -/
def Test.update (t : Test) (_ : Unit) : Test × Option Effect := (t, none)

/-- Views `Test` as a boxed `dyn Component<Message = ()>` trait object. -/
def Test.component (t : Test) : Component := ⟨t.view, fun m => (t.update m).2⟩

/-- Embeds `struct App` (src/main.rs line 201): a unit struct. -/
structure App where

/-- Embeds `impl Default for App` (src/main.rs lines 203-207). -/
def App.default : App := ⟨⟩

/-- Embeds `App::view` (src/main.rs lines 212-214):
`Node::native("div").with_child(Node::custom(Box::new(Test {})))`. -/
def App.view (_ : App) : Node :=
  (Node.native "div".data).with_child (Node.custom (Test.component ⟨⟩))

/-- Embeds `App::update` (src/main.rs lines 216-218). -/
def App.update (a : App) (_ : Unit) : App × Option Effect := (a, none)

/-- The virtual DOM built by `main` (src/main.rs line 265). -/
def virt_dom : Node := App.default.view

/-- Lemma: `renderChildren` is exactly the `map` of the re-indented child
renderings. -/
theorem renderChildren_eq_map (children : List Node) :
    renderChildren children = children.map (fun child => indentChild child.to_html) := by
  induction children with
  | nil => rfl
  | cons c cs ih => simp [renderChildren, ih]

/-- Unfolding equation of `Node.to_html` on a `Native` node, in `map` form. -/
theorem Node.to_html_native (tag : Str) (children : List Node)
    (oc : Option Unit) (attributes : Attrs) :
    (Node.mk (.native tag) children oc attributes).to_html =
      '<' :: tag ++
      (if attributes.length = 0 then [] else [' ']) ++
      attrsJoined attributes ++
      '>' :: '\n' ::
      joinSep ['\n'] (children.map (fun child => indentChild child.to_html)) ++
      '\n' :: '<' :: '/' :: tag ++ ['>'] := by
  rw [Node.to_html, renderChildren_eq_map]

/-- Lemma: `splitNl` always returns at least one part. -/
theorem splitNl_ne_nil (s : Str) : splitNl s ≠ [] := by
  induction s with
  | nil => simp [splitNl]
  | cons c rest ih =>
    simp only [splitNl]
    split
    · simp
    · split
      · simp
      · simp

/-- No part produced by `splitNl` contains a newline. -/
theorem nl_not_mem_of_mem_splitNl (s : Str) :
    ∀ p ∈ splitNl s, '\n' ∉ p := by
  induction s with
  | nil =>
    intro p hp
    simp only [splitNl, List.mem_singleton] at hp
    simp [hp]
  | cons c rest ih =>
    intro p hp
    by_cases hc : c = '\n'
    · subst hc
      simp only [splitNl, if_pos rfl] at hp
      rcases List.mem_cons.mp hp with h | h
      · simp [h]
      · exact ih p h
    · rcases hq : splitNl rest with _ | ⟨q, qs⟩
      · exact absurd hq (splitNl_ne_nil rest)
      · simp only [splitNl, if_neg hc, hq] at hp
        rcases List.mem_cons.mp hp with h | h
        · subst h
          intro hmem
          rcases List.mem_cons.mp hmem with h1 | h1
          · exact hc h1.symm
          · exact ih q (by simp [hq]) h1
        · exact ih p (by simp [hq, h])

/-- Prepending a newline-free prefix extends the first line of the split. -/
theorem splitNl_append_no_nl (p s : Str) (q : Str) (qs : List Str)
    (hp : '\n' ∉ p) (hs : splitNl s = q :: qs) :
    splitNl (p ++ s) = (p ++ q) :: qs := by
  induction p with
  | nil => simpa using hs
  | cons c p ih =>
    have hc : ¬ c = '\n' := by intro h; exact hp (by simp [h])
    have hp' : '\n' ∉ p := fun h => hp (List.mem_cons_of_mem c h)
    simp only [List.cons_append, splitNl, if_neg hc, List.append_eq, ih hp']

/-- A newline-free string splits into exactly itself. -/
theorem splitNl_of_no_nl (p : Str) (hp : '\n' ∉ p) : splitNl p = [p] := by
  have := splitNl_append_no_nl p [] [] [] hp (by simp [splitNl])
  simpa using this

/-- Lemma: `splitNl` distributes over a newline join point. -/
theorem splitNl_append_nl (a b : Str) :
    splitNl (a ++ '\n' :: b) = splitNl a ++ splitNl b := by
  induction a with
  | nil => simp [splitNl]
  | cons c a ih =>
    by_cases hc : c = '\n'
    · subst hc
      simp [splitNl, ih]
    · rcases hq : splitNl a with _ | ⟨q, qs⟩
      · exact absurd hq (splitNl_ne_nil a)
      · simp [splitNl, if_neg hc, ih, hq]

/-- Splitting a newline-join of parts yields the concatenation of the
parts' own splits. -/
theorem splitNl_joinSep_nl (ps : List Str) (hne : ps ≠ []) :
    splitNl (joinSep ['\n'] ps) = (ps.map splitNl).flatten := by
  induction ps with
  | nil => exact absurd rfl hne
  | cons p ps ih =>
    cases ps with
    | nil => simp [joinSep]
    | cons q qs =>
      rw [show joinSep ['\n'] (p :: q :: qs) = p ++ '\n' :: joinSep ['\n'] (q :: qs)
          from by simp [joinSep],
        splitNl_append_nl, ih (by simp)]
      simp

/-- Splitting a newline-join of newline-free parts recovers the parts. -/
theorem splitNl_joinSep_eq (ps : List Str) (hne : ps ≠ [])
    (h : ∀ p ∈ ps, '\n' ∉ p) :
    splitNl (joinSep ['\n'] ps) = ps := by
  rw [splitNl_joinSep_nl ps hne]
  have : ps.map splitNl = ps.map (fun p => [p]) := by
    apply List.map_congr_left
    intro p hp
    exact splitNl_of_no_nl p (h p hp)
  rw [this]
  clear this h hne
  induction ps with
  | nil => rfl
  | cons p ps ih => simp [ih]

/-- Re-indenting a child rendering prepends exactly two spaces to every one
of its lines. -/
theorem splitNl_indentChild (s : Str) :
    splitNl (indentChild s) = (splitNl s).map (fun line => ' ' :: ' ' :: line) := by
  apply splitNl_joinSep_eq
  · simp only [ne_eq, List.map_eq_nil_iff]
    exact splitNl_ne_nil s
  · intro p hp
    rcases List.mem_map.mp hp with ⟨l, hl, rfl⟩
    intro hmem
    have hnl : '\n' ∈ l := by
      rcases List.mem_cons.mp hmem with h | hmem2
      · exact absurd h (by decide)
      · rcases List.mem_cons.mp hmem2 with h | h
        · exact absurd h (by decide)
        · exact h
    exact nl_not_mem_of_mem_splitNl s l hl hnl

/-- Lemma: `d` nested re-indentations prepend exactly `2·d` spaces to every line. -/
theorem splitNl_iterate_indentChild (d : Nat) (s : Str) :
    splitNl (indentChild^[d] s) =
      (splitNl s).map (fun line => List.replicate (2 * d) ' ' ++ line) := by
  induction d generalizing s with
  | zero => simp
  | succ d ih =>
    rw [Function.iterate_succ_apply, ih, splitNl_indentChild, List.map_map]
    apply List.map_congr_left
    intro line _
    show List.replicate (2 * d) ' ' ++ (' ' :: ' ' :: line) =
      List.replicate (2 * (d + 1)) ' ' ++ line
    rw [show 2 * (d + 1) = 2 * d + 2 from by ring, List.replicate_add]
    simp [List.append_assoc]

/-- An infix survives mapping. -/
theorem isInfix_map {α β : Type} (f : α → β) {M L : List α} (h : M <:+: L) :
    M.map f <:+: L.map f := by
  obtain ⟨s, t, rfl⟩ := h
  exact ⟨s.map f, t.map f, by simp⟩

/-- Relation `OccursAt root d m`: the node `m` sits in the tree `root` below exactly
`d` `Native` ancestor frames.  A `Custom` boundary is transparent: its
cached subtree is rendered in place and contributes no frame. -/
inductive OccursAt : Node → Nat → Node → Prop where
  | refl (n : Node) : OccursAt n 0 n
  | nativeChild (tag : Str) (children : List Node) (oc : Option Unit)
      (attrs : Attrs) (c : Node) (d : Nat) (m : Node)
      (hc : c ∈ children) (h : OccursAt c d m) :
      OccursAt (.mk (.native tag) children oc attrs) (d + 1) m
  | customBoundary (r : Node) (children : List Node) (oc : Option Unit)
      (attrs : Attrs) (d : Nat) (m : Node) (h : OccursAt r d m) :
      OccursAt (.mk (.custom r) children oc attrs) d m

/-- The lines of a node sitting below `d` `Native` frames appear in the
root's rendering contiguously, each prefixed by exactly `2·d` spaces. -/
theorem occursAt_indent (root : Node) (d : Nat) (m : Node)
    (h : OccursAt root d m) :
    (splitNl m.to_html).map (fun line => List.replicate (2 * d) ' ' ++ line)
      <:+: splitNl root.to_html := by
  induction h with
  | refl n =>
    simp only [Nat.mul_zero, List.replicate_zero, List.nil_append]
    simp
  | customBoundary r children oc attrs d m h ih =>
    simpa [Node.to_html] using ih
  | nativeChild tag children oc attrs c d m hc h ih =>
    have hhtml : (Node.mk (.native tag) children oc attrs).to_html =
        ('<' :: tag ++ (if attrs.length = 0 then [] else [' ']) ++
          attrsJoined attrs ++ ['>']) ++
        '\n' :: (joinSep ['\n'] (renderChildren children) ++
          '\n' :: ('<' :: '/' :: tag ++ ['>'])) := by
      rw [Node.to_html]
      simp [List.append_assoc]
    have hchildren_ne : children ≠ [] := by
      intro hnil
      rw [hnil] at hc
      exact absurd hc (List.not_mem_nil c)
    have hbody : splitNl (joinSep ['\n'] (renderChildren children)) =
        ((children.map (fun child => indentChild child.to_html)).map splitNl).flatten := by
      rw [renderChildren_eq_map, splitNl_joinSep_nl]
      simp only [ne_eq, List.map_eq_nil_iff]
      exact hchildren_ne
    have hmem : splitNl (indentChild c.to_html) ∈
        (children.map (fun child => indentChild child.to_html)).map splitNl := by
      exact List.mem_map_of_mem _ (List.mem_map_of_mem _ hc)
    have hinfix1 : splitNl (indentChild c.to_html) <:+:
        splitNl (joinSep ['\n'] (renderChildren children)) := by
      rw [hbody]
      exact List.infix_of_mem_flatten hmem
    have hstep : (splitNl m.to_html).map
        (fun line => List.replicate (2 * (d + 1)) ' ' ++ line) <:+:
        splitNl (indentChild c.to_html) := by
      rw [splitNl_indentChild]
      have := isInfix_map (fun line => ' ' :: ' ' :: line) ih
      rw [List.map_map] at this
      convert this using 2
    rw [hhtml, splitNl_append_nl, splitNl_append_nl]
    have hmid : splitNl (joinSep ['\n'] (renderChildren children)) <:+:
        splitNl ('<' :: tag ++ (if attrs.length = 0 then [] else [' ']) ++
            attrsJoined attrs ++ ['>']) ++
          (splitNl (joinSep ['\n'] (renderChildren children)) ++
            splitNl ('<' :: '/' :: tag ++ ['>'])) := by
      rw [← List.append_assoc]
      exact List.infix_append _ _ _
    exact (hstep.trans hinfix1).trans hmid

/-- Nesting example of the spec:
`Native("div").withChild(Native("span").withChild(Text("x")))`. -/
def ex1 : Node :=
  (Node.native "div".data).with_child
    ((Node.native "span".data).with_child (Node.text "x".data))

/-- Claim C1, counterexample: the render of the nested example is not the
string quoted by the spec, whose inner text line `  x` carries only two
spaces of indentation. -/
theorem C1_counterexample :
    ex1.to_html ≠ "<div>\n  <span>\n  x\n  </span>\n</div>".data := by
  decide

/-- Claim C1, as amended: the render of the nested example equals
`<div>\n  <span>\n    x\n  </span>\n</div>` — the inner text `x` is
indented by four spaces, two per enclosing `Native` ancestor, one more
level than its parent `<span>` line. -/
theorem C1_nesting_render :
    ex1.to_html = "<div>\n  <span>\n    x\n  </span>\n</div>".data := by
  decide

/-- Claim C2: `Node::custom` calls the component's `view()` at
node-construction time and caches the resulting subtree in the `Custom`
kind; rendering the `Custom` node renders exactly that cached subtree and
never consults the component again, so
`render(custom(c)) = render(c.view())`. -/
theorem C2_custom_transparent (c : Component) :
    (Node.custom c).kind = NodeKind.custom c.view ∧
    (Node.custom c).to_html = c.view.to_html :=
  ⟨rfl, rfl⟩

/-- Claim C3: rendering a `Native` node re-indents every line of each
child's rendered output by prepending exactly two spaces
(first two conjuncts), and the indentation is cumulative per `Native`
ancestor frame: the lines of a node sitting `d` `Native` frames below the
root appear contiguously in the root's rendering with exactly `2·d`
prepended spaces, for every tree and every depth (last conjunct). -/
theorem C3_native_reindent_cumulative :
    (∀ (tag : Str) (children : List Node) (oc : Option Unit) (attrs : Attrs),
      (Node.mk (.native tag) children oc attrs).to_html =
        '<' :: tag ++ (if attrs.length = 0 then [] else [' ']) ++
        attrsJoined attrs ++ '>' :: '\n' ::
        joinSep ['\n'] (children.map (fun child => indentChild child.to_html)) ++
        '\n' :: '<' :: '/' :: tag ++ ['>']) ∧
    (∀ s : Str, splitNl (indentChild s) =
      (splitNl s).map (fun line => ' ' :: ' ' :: line)) ∧
    (∀ (root : Node) (d : Nat) (m : Node), OccursAt root d m →
      (splitNl m.to_html).map (fun line => List.replicate (2 * d) ' ' ++ line)
        <:+: splitNl root.to_html) :=
  ⟨Node.to_html_native, splitNl_indentChild, occursAt_indent⟩

/-- Witness for claim C3: in the tree `div > span > text "x"` the text node
sits below two `Native` frames and its line carries four spaces. -/
theorem C3_witness :
    (splitNl (Node.text "x".data).to_html).map
      (fun line => List.replicate (2 * 2) ' ' ++ line) <:+:
      splitNl ((Node.native "div".data).with_child
        ((Node.native "span".data).with_child (Node.text "x".data))).to_html :=
  C3_native_reindent_cumulative.2.2 _ 2 _
    (OccursAt.nativeChild _ _ _ _ _ 1 _ (List.mem_singleton_self _)
      (OccursAt.nativeChild _ _ _ _ _ 0 _ (List.mem_singleton_self _)
        (OccursAt.refl _)))

/-- Claim C4: a `Native(tag)` node with no children and no attributes
renders to `<` + tag + `>\n\n</` + tag + `>`: opening tag, one blank line,
closing tag, each tag on its own line. -/
theorem C4_empty_native_render (tag : Str) :
    (Node.native tag).to_html =
      '<' :: tag ++ '>' :: '\n' :: '\n' :: '<' :: '/' :: tag ++ ['>'] := by
  simp [Node.native, Node.to_html, renderChildren, joinSep, attrsJoined]

/-- Claim C5: each attribute entry is serialized as
`key=` + `toDisplayString(value)`, the entries are joined by single spaces,
and the joined string is prefixed by exactly one space iff the mapping is
non-empty; on the mapping `a ↦ Number 1, b ↦ String "x"` (in both
iteration orders of the hash map) the opening tag holds `a=1` and `b="x"`
once each with no extra spaces. -/
theorem C5_attribute_serialization :
    (∀ kv : Str × NodeAttributeValue, attrEntry kv = kv.1 ++ '=' :: kv.2.display) ∧
    (∀ (tag : Str) (children : List Node) (oc : Option Unit) (attrs : Attrs),
      (Node.mk (.native tag) children oc attrs).to_html =
        '<' :: tag ++
        (if attrs = [] then [] else ' ' :: joinSep [' '] (attrs.map attrEntry)) ++
        '>' :: '\n' ::
        joinSep ['\n'] (children.map (fun child => indentChild child.to_html)) ++
        '\n' :: '<' :: '/' :: tag ++ ['>']) ∧
    (Node.mk (.native "div".data) [] none
        [("a".data, .number 1), ("b".data, .string "x".data)]).to_html =
      "<div a=1 b=\"x\">\n\n</div>".data ∧
    (Node.mk (.native "div".data) [] none
        [("b".data, .string "x".data), ("a".data, .number 1)]).to_html =
      "<div b=\"x\" a=1>\n\n</div>".data := by
  refine ⟨fun kv => rfl, ?_, by decide, by decide⟩
  intro tag children oc attrs
  rw [Node.to_html_native]
  cases attrs with
  | nil => simp [attrsJoined, joinSep]
  | cons kv rest => simp [attrsJoined]

/-- Claim C6: `as_text` passes strings through unchanged and renders
numbers and booleans canonically; `toDisplayString` (the `Display`
instance) wraps strings in double quotes with no escaping and agrees with
`as_text` on numbers and booleans; concretely
`Number(-1).as_text = "-1"`, `Boolean(true).display = "true"` and
`String("x").display = "\"x\""`. -/
theorem C6_attribute_value_formatting :
    (∀ s : Str, (NodeAttributeValue.string s).as_text = s) ∧
    (∀ s : Str, (NodeAttributeValue.string s).display = '"' :: s ++ ['"']) ∧
    (∀ n : Int, (NodeAttributeValue.number n).display =
      (NodeAttributeValue.number n).as_text) ∧
    (∀ b : Bool, (NodeAttributeValue.boolean b).display =
      (NodeAttributeValue.boolean b).as_text) ∧
    (NodeAttributeValue.number (-1)).as_text = "-1".data ∧
    (NodeAttributeValue.boolean true).display = "true".data ∧
    (NodeAttributeValue.string "x".data).display = "\"x\"".data :=
  ⟨fun _ => rfl, fun _ => rfl, fun _ => rfl, fun _ => rfl,
    by decide, by decide, by decide⟩

/-- Claim C7: constructing an attribute value from a `u32` stores
`Number(x as i32)`: the stored integer is congruent to `u` modulo `2^32`
and lies in the signed 32-bit range (two's-complement reading), and for
every `u32` above `2^31 - 1` it is negative (the value silently wraps). -/
theorem C7_u32_wrap (u : Nat) (hu : u < 2 ^ 32) :
    NodeAttributeValue.fromU32 u = .number (NodeAttributeValue.u32AsI32 u) ∧
    NodeAttributeValue.u32AsI32 u % (2 ^ 32 : Int) = (u : Int) % 2 ^ 32 ∧
    -(2 ^ 31) ≤ NodeAttributeValue.u32AsI32 u ∧
    NodeAttributeValue.u32AsI32 u < 2 ^ 31 ∧
    (2 ^ 31 - 1 < u → NodeAttributeValue.u32AsI32 u < 0) := by
  refine ⟨rfl, ?_⟩
  unfold NodeAttributeValue.u32AsI32
  split <;> push_cast <;> omega

/-- Witness for claim C7 at `u = 4294967295`, the largest `u32`: the
stored number is negative. -/
theorem C7_witness : NodeAttributeValue.u32AsI32 4294967295 < 0 :=
  (C7_u32_wrap 4294967295 (by norm_num)).2.2.2.2 (by norm_num)

/-- Claim C8: `with_child` appends exactly one child at the end of the
receiver's `children` and changes nothing else, and for a receiver whose
kind is `Text` or `Custom` (i.e. not `Native`) appending a child does not
change the rendering. -/
theorem C8_with_child (n c : Node) :
    ((n.with_child c).kind = n.kind ∧
     (n.with_child c).children = n.children ++ [c] ∧
     (n.with_child c).on_click = n.on_click ∧
     (n.with_child c).attributes = n.attributes) ∧
    ((∀ tag, n.kind ≠ NodeKind.native tag) →
      (n.with_child c).to_html = n.to_html) := by
  obtain ⟨k, cs, oc, attrs⟩ := n
  refine ⟨⟨rfl, rfl, rfl, rfl⟩, ?_⟩
  intro h
  cases k with
  | native tag => exact absurd rfl (h tag)
  | text v => rfl
  | custom r => rfl

/-- Witness for claim C8: appending a child to the text node `a` keeps the
rendering `a` while the child is recorded in `children`. -/
theorem C8_witness :
    ((Node.text "a".data).with_child (Node.text "b".data)).children =
      (Node.text "a".data).children ++ [Node.text "b".data] ∧
    ((Node.text "a".data).with_child (Node.text "b".data)).to_html =
      (Node.text "a".data).to_html :=
  ⟨(C8_with_child (Node.text "a".data) (Node.text "b".data)).1.2.1,
   (C8_with_child (Node.text "a".data) (Node.text "b".data)).2
     (fun _ h => nomatch h)⟩

/-- Claim C9: the demo application renders to a fixed string:
`App::default().view()` is a `Native("div")` with a single `Custom` child
caching `Test`'s view `Text("Hello world")`, and its render is exactly
`<div>\n  Hello world\n</div>`. -/
theorem C9_demo_render :
    App.default.view = Node.mk (.native "div".data)
      [Node.mk (.custom (Node.text "Hello world".data)) [] none []] none [] ∧
    Test.mk.view = Node.text "Hello world".data ∧
    virt_dom.to_html = "<div>\n  Hello world\n</div>".data :=
  ⟨rfl, rfl, by decide⟩

/-- Claim C10: `Effect` being uninhabited, every value of type
`Option Effect` is `None`; in particular `Test::update` and `App::update`
return `None` on every message and leave the (stateless) component
unchanged. -/
theorem C10_update_none :
    (∀ e : Option Effect, e = none) ∧
    (∀ (t : Test) (m : Unit), t.update m = (t, none)) ∧
    (∀ (a : App) (m : Unit), a.update m = (a, none)) :=
  ⟨fun e => (match e with
    | none => rfl
    | some x => nomatch x),
   fun _ _ => rfl, fun _ _ => rfl⟩
